import Mathlib

/-!
Shallow embedding of the sidekick analyser-manager (src/index.js,
src/extractors/npmExtractor.js, src/errors/UnknownAnalyserError.js).

Conventions of the embedding:
* Promises are modelled as `Except JsErr α`: a resolved promise is `.ok`,
  a rejected promise is `.error`.
* External effects (filesystem, network, child processes, event emission)
  are modelled by an explicit environment of oracles plus a trace of
  `Effect` values accumulated in program order.
* JS strings are Lean `String`s; JS string comparison (`<` on strings,
  used by lodash `sortBy`) is modelled by `charListLtb` on the character
  lists, which agrees with JS code-unit comparison on ASCII data.
* `undefined`/`null`/string results of `getLatestVersionOfInstalledAnalyser`
  are modelled by the three-valued `JsStrOpt`.
-/

/-- Events emitted by the npm extractor (and proxied by the manager). -/
inductive Event
  | downloading
  | downloaded
  | installing
  | installed
deriving DecidableEq, Repr

/-- Trace entries for the external effects the code performs, recorded in
program order: event emission, network requests, directory creation and
removal, tarball download / unpack / deletion, running the post-install
hook, and reading a `config.json` file. -/
inductive Effect
  | emit (e : Event)
  | netRequest (url : String)
  | mkdirE (path : String)
  | download (url filePath : String)
  | unpack (tarball dir : String)
  | deleteFile (filePath : String)
  | runHook (dir : String)
  | removeDir (path : String)
  | readConfigFile (filePath : String)
deriving DecidableEq, Repr

/-- Rejection values: plain `Error(msg)`, `new UnknownAnalyserError(name)`
(src/errors/UnknownAnalyserError.js), and thrown `TypeError`s. -/
inductive JsErr
  | error (message : String)
  | unknownAnalyser (analyserName : String)
  | typeError (message : String)
deriving DecidableEq, Repr

/-- Message of a rejection value.  `UnknownAnalyserError` sets
`this.message = ‹Unknown analyser: › + analyserName` in its constructor. -/
def JsErr.message : JsErr → String
  | .error m => m
  | .unknownAnalyser analyserName => "Unknown analyser: " ++ analyserName
  | .typeError m => m

/-- Model of `doReject(errMsg, err)` from src/index.js: the rejection is
`Error(errMsg + ‹\n› + err.message)` when an `err` with a truthy message is
given, else `Error(errMsg)`.  The argument is the optional `err.message`. -/
def doReject (errMsg : String) (err : Option String) : JsErr :=
  match err with
  | some m => if m = "" then .error errMsg else .error (errMsg ++ "\n" ++ m)
  | none => .error errMsg

/-- JS template-literal rendering of a possibly-`undefined` string. -/
def optStr : Option String → String
  | none => "undefined"
  | some s => s

/-- Model of `path.join(a, b)` (normalisation is immaterial here). -/
def pathJoin (a b : String) : String := a ++ "/" ++ b

/-- The per-version install directory `{installRoot}/{name}@{version}`. -/
def targetPath (installDir analyserName version : String) : String :=
  pathJoin installDir (analyserName ++ "@" ++ version)

/-- First-key-wins lookup in a JS-object-as-association-list. -/
def lookupList {α : Type} (l : List (String × α)) (key : String) : Option α :=
  match l.find? (fun p => p.1 == key) with
  | some p => some p.2
  | none => none

/-- Result value `{null, undefined, or a string}` of
`getLatestVersionOfInstalledAnalyser`. -/
inductive JsStrOpt
  | null
  | undefined
  | str (s : String)
deriving DecidableEq, Repr

/-! ## String helpers mirroring the JS string operations used -/

/-- Everything after the first occurrence of `c`; unchanged behaviour of
`s.substr(s.indexOf(c) + 1)` needs the no-occurrence case handled at the
call site (`substrAfterAt`). -/
def afterFirstChar (c : Char) : List Char → List Char
  | [] => []
  | x :: xs => if x = c then xs else afterFirstChar c xs

/-- Model of `dir.substr(dir.indexOf(Char @) + 1)`: the suffix after the
first `@`, or the whole string when there is no `@` (JS `indexOf` yields
`-1`, so `substr(0)` returns the whole string). -/
def substrAfterAt (dir : String) : String :=
  if dir.data.contains '@' then ⟨afterFirstChar '@' dir.data⟩ else dir

/-- Everything after the last occurrence of `c` (the whole list when `c`
does not occur), as in `url.substr(url.lastIndexOf(c) + 1)`. -/
def afterLastChar (c : Char) (l : List Char) : List Char :=
  ((l.reverse.takeWhile (fun x => x ≠ c)).reverse)

/-- Model of `resolveTarballName` from src/extractors/npmExtractor.js:
the basename after the last `/` of the tarball URL. -/
def resolveTarballName (tarballURL : String) : String :=
  ⟨afterLastChar '/' tarballURL.data⟩

/-- ASCII lower-casing of one character (model of the case folding done by
a case-insensitive JS RegExp on ASCII input). -/
def lowerChar (c : Char) : Char :=
  if 65 ≤ c.toNat ∧ c.toNat ≤ 90 then Char.ofNat (c.toNat + 32) else c

/-- ASCII lower-casing of a string. -/
def lowerStr (s : String) : String := ⟨s.data.map lowerChar⟩

/-- Model of `new RegExp(‹^› + analyserName + ‹@›, "i").test(file)` from
`getDirectories` in src/index.js: case-insensitive prefix test (faithful
for analyser names free of regex metacharacters, as all analyser names
are). -/
def strHasPrefixCI (analyserName file : String) : Bool :=
  (lowerStr (analyserName ++ "@")).data.isPrefixOf (lowerStr file).data

/-- JS `<` on strings (code-unit lexicographic order), on char lists. -/
def charListLtb : List Char → List Char → Bool
  | [], [] => false
  | [], _ :: _ => true
  | _ :: _, [] => false
  | a :: as, b :: bs =>
    if a < b then true else if b < a then false else charListLtb as bs

/-- JS `<` on strings. -/
def jsLtb (a b : String) : Bool := charListLtb a.data b.data

/-- JS `≤` on strings (total order complement of `jsLtb`). -/
def jsLeb (a b : String) : Bool := !(jsLtb b a)

/-! ## node-semver model

`semver.valid` / the `SemVer` constructor accept
`v?MAJOR.MINOR.PATCH(-prerelease)?(+build)?` with numeric components free
of leading zeroes; `semver.lt` compares major, minor, patch numerically,
then prerelease lists (a pre-release sorts below the plain version;
numeric identifiers sort below alphanumeric ones; alphanumeric identifiers
compare as JS strings; a shorter identifier list sorts below a longer
one). -/

/-- Split a character list at every occurrence of `c` (like
`String.prototype.split` with a single-character separator). -/
def splitOnChar (c : Char) (l : List Char) : List (List Char) :=
  l.foldr
    (fun x acc =>
      match acc with
      | [] => [[]]
      | g :: gs => if x = c then [] :: g :: gs else (x :: g) :: gs)
    [[]]

/-- Break at the first occurrence of `c`: the part before it, and
(`some`) the part after it when `c` occurs. -/
def breakAtChar (c : Char) : List Char → List Char × Option (List Char)
  | [] => ([], none)
  | x :: xs =>
    if x = c then ([], some xs)
    else
      let r := breakAtChar c xs
      (x :: r.1, r.2)

/-- Numeric value of a digit list. -/
def natOfDigits (l : List Char) : Nat :=
  l.foldl (fun n c => n * 10 + (c.toNat - 48)) 0

/-- Parse a strict numeric identifier `(0|[1-9][0-9]*)`: non-empty, all
digits, no leading zero. -/
def parseNumericId (l : List Char) : Option Nat :=
  if l.isEmpty then none
  else if !(l.all Char.isDigit) then none
  else if l.head? = some '0' ∧ 1 < l.length then none
  else some (natOfDigits l)

/-- Characters allowed in prerelease/build identifiers: `[0-9A-Za-z-]`. -/
def isIdentChar (c : Char) : Bool := c.isDigit || c.isAlpha || c = '-'

/-- One prerelease identifier: numeric (compared as a number) or
alphanumeric (compared as a string). -/
inductive PreId
  | num (n : Nat)
  | alnum (s : List Char)
deriving DecidableEq, Repr

/-- Parse one prerelease identifier: an all-digit identifier must be a
strict numeric identifier; otherwise any non-empty `[0-9A-Za-z-]+`. -/
def parsePreId (l : List Char) : Option PreId :=
  if l.isEmpty then none
  else if l.all Char.isDigit then (parseNumericId l).map PreId.num
  else if l.all isIdentChar then some (.alnum l)
  else none

/-- A parsed semantic version (build metadata is validated but dropped,
as it never affects ordering). -/
structure SemVer where
  major : Nat
  minor : Nat
  patch : Nat
  prerelease : List PreId
deriving DecidableEq, Repr

/-- Model of `semver.valid` / the `SemVer` constructor parse (strict
mode): returns the parsed version, or `none` for an invalid version. -/
def semverParse (s : String) : Option SemVer :=
  if 256 < s.length then none
  else
    let chars := if s.data.head? = some 'v' then s.data.tail else s.data
    let mainAndBuild := breakAtChar '+' chars
    let buildOk : Bool :=
      match mainAndBuild.2 with
      | none => true
      | some b =>
        !(b.contains '+') &&
          (splitOnChar '.' b).all (fun id => !id.isEmpty && id.all isIdentChar)
    if !buildOk then none
    else
      let coreAndPre := breakAtChar '-' mainAndBuild.1
      let preIds : Option (List PreId) :=
        match coreAndPre.2 with
        | none => some []
        | some p => (splitOnChar '.' p).mapM parsePreId
      match preIds with
      | none => none
      | some pre =>
        match splitOnChar '.' coreAndPre.1 with
        | [ma, mi, pa] =>
          match parseNumericId ma, parseNumericId mi, parseNumericId pa with
          | some x, some y, some z => some ⟨x, y, z, pre⟩
          | _, _, _ => none
        | _ => none

/-- Three-way comparison of naturals. -/
def cmpNat (a b : Nat) : Ordering :=
  if a = b then .eq else if a < b then .lt else .gt

/-- Model of node-semver `compareIdentifiers` on two identifiers. -/
def cmpPreId : PreId → PreId → Ordering
  | .num a, .num b => cmpNat a b
  | .num _, .alnum _ => .lt
  | .alnum _, .num _ => .gt
  | .alnum a, .alnum b =>
    if a = b then .eq else if charListLtb a b then .lt else .gt

/-- Pointwise comparison of prerelease identifier lists; a proper prefix
sorts below the longer list. -/
def cmpPreList : List PreId → List PreId → Ordering
  | [], [] => .eq
  | [], _ :: _ => .lt
  | _ :: _, [] => .gt
  | a :: as, b :: bs =>
    match cmpPreId a b with
    | .eq => cmpPreList as bs
    | o => o

/-- Model of node-semver `compare`: major, minor, patch numerically, then
prerelease (a version with a prerelease sorts below the same version
without one). -/
def semverCompare (a b : SemVer) : Ordering :=
  match cmpNat a.major b.major with
  | .eq =>
    match cmpNat a.minor b.minor with
    | .eq =>
      match cmpNat a.patch b.patch with
      | .eq =>
        match a.prerelease, b.prerelease with
        | [], [] => .eq
        | [], _ :: _ => .gt
        | _ :: _, [] => .lt
        | x, y => cmpPreList x y
      | o => o
    | o => o
  | o => o

/-- Model of `semver.lt` on version strings (call sites only apply it to
strings already validated by `semver.valid`). -/
def semverLtStr (a b : String) : Bool :=
  match semverParse a, semverParse b with
  | some x, some y => semverCompare x y == Ordering.lt
  | _, _ => false

/-- Model of `semver.valid(version)` truthiness for a possibly-`undefined`
argument (`semver.valid(undefined)` is `null`, i.e. falsy). -/
def validOpt : Option String → Bool
  | none => false
  | some v => (semverParse v).isSome

/-! ## Data model of the manager and the npm extractor -/

/-- Opaque analyser config (the manager never inspects its contents). -/
structure Config where
  data : String
deriving DecidableEq, Repr

/-- One entry of the central analyser list: a registry tag wrapping the
canonical config. -/
structure AnalyserEntry where
  registry : String
  config : Config
deriving DecidableEq, Repr

/-- The `analyser` argument of `installAnalyser`: a name and an optional
version. -/
structure AnalyserArg where
  name : String
  version : Option String
deriving DecidableEq, Repr

/-- The `{path, config}` result shape of `fetchAnalyser` and
`installAnalyser`. -/
structure InstallResult where
  path : String
  config : Config
deriving DecidableEq, Repr

/-- The `{newer?, latest}` result of `isNewerVersionAvailable` (`newer` is
absent, i.e. `none`, when the supplied version was not a valid semantic
version). -/
structure NewerResult where
  newer : Option Bool
  latest : String
deriving DecidableEq, Repr

/-- Per-version npm metadata (`versions[v].dist.tarball`). -/
structure VersionInfo where
  tarball : String
deriving DecidableEq, Repr

/-- npm package metadata: `dist-tags.latest` and the `versions` map. -/
structure PackageInfo where
  distTagsLatest : String
  versions : List (String × VersionInfo)
deriving DecidableEq, Repr

/-- Result of one `fs.stat` call: success, or rejection with an error
carrying a `code` (`"ENOENT"` for a missing entry) and a message. -/
inductive StatResult
  | ok
  | err (code : String) (message : String)
deriving DecidableEq, Repr

/-- Oracles for the external world seen by the npm extractor: the npm
registry response, and the outcomes of `mkdir`, the tarball download
stream, the unpack streams and the `./bin/install` hook (each `.error`
carries the underlying error message). -/
structure NpmEnv where
  npmInfo : String → Except JsErr PackageInfo
  mkdirResult : String → Except String Unit
  downloadResult : Except String Unit
  unpackResult : Except String Unit
  hookResult : Except String Unit

/-- Oracles for the external world seen by the manager: the install root,
the central analyser list fetch, the npm `dist-tags.latest` per analyser,
`fs.stat`, `fs.readFile`, `JSON.parse(stripJsonComments(...))` (all-or-
nothing, `.error` is the exception message) and `fs.remove`. -/
structure ManagerEnv where
  installDir : String
  analyserList : Except JsErr (List (String × AnalyserEntry))
  npmLatest : String → Except JsErr String
  stat : String → StatResult
  readFileResult : String → Except String String
  parseJson : String → Except String Config
  removeResult : String → Except String Unit

/-! ## npm extractor (src/extractors/npmExtractor.js) -/

/-- The concrete version picked by `NpmExtractor.fetch`: the `latest`
dist-tag resolves to `dist-tags.latest`, everything else is used
unchanged. -/
def resolveInstallVersion (analyserVersion : String) (analyserInfo : PackageInfo) : String :=
  if analyserVersion = "latest" then analyserInfo.distTagsLatest else analyserVersion

/-- Model of `NpmExtractor.fetch(analyser, analyserVersion,
analyserInstallDir)`: emits `downloading`, fetches the npm metadata,
resolves the version and rejects when the `versions` map lacks it, makes
the version directory, downloads the tarball (emitting `downloaded`),
unpacks it, deletes the tarball, then emits `installing`, runs
`./bin/install` and emits `installed` on success. -/
def npmFetch (env : NpmEnv) (analyser : AnalyserArg) (analyserVersion : String)
    (analyserInstallDir : String) : Except JsErr Unit × List Effect :=
  let evs0 := [Effect.emit .downloading,
               Effect.netRequest ("https://registry.npmjs.org/" ++ analyser.name)]
  match env.npmInfo analyser.name with
  | .error e => (.error e, evs0)
  | .ok analyserInfo =>
    let versionToInstall := resolveInstallVersion analyserVersion analyserInfo
    match lookupList analyserInfo.versions versionToInstall with
    | none =>
      (.error (doReject ("Invalid version for analyser '" ++ analyser.name ++
        "'. npm does not have version '" ++ versionToInstall ++ "'") none), evs0)
    | some specificVersionInfo =>
      let newAnalyserDir := targetPath analyserInstallDir analyser.name analyserVersion
      match env.mkdirResult newAnalyserDir with
      | .error e =>
        (.error (doReject ("Unable to create analyser dir for analyser '" ++
          analyser.name ++ "'") (some e)), evs0)
      | .ok _ =>
        let tarballURL := specificVersionInfo.tarball
        let tarballFullPath := pathJoin newAnalyserDir (resolveTarballName tarballURL)
        let evs1 := evs0 ++ [Effect.mkdirE newAnalyserDir,
                             Effect.download tarballURL tarballFullPath]
        match env.downloadResult with
        | .error _ =>
          -- the stream error handler rejects with the bare string below
          (.error (.error ("Unable to fetch tarball '" ++ tarballURL ++ "'")), evs1)
        | .ok _ =>
          let evs2 := evs1 ++ [Effect.emit .downloaded,
                               Effect.unpack tarballFullPath newAnalyserDir]
          match env.unpackResult with
          | .error m => (.error (.error m), evs2)
          | .ok _ =>
            let evs3 := evs2 ++ [Effect.deleteFile tarballFullPath,
                                 Effect.emit .installing,
                                 Effect.runHook newAnalyserDir]
            match env.hookResult with
            | .error m => (.error (.error m), evs3)
            | .ok _ => (.ok (), evs3 ++ [Effect.emit .installed])

/-- Model of `NpmExtractor.getLatestVersion`: one registry request,
resolving `dist-tags.latest`; the latest tag itself is supplied by the
environment (`ManagerEnv.npmLatest`). -/
def getLatestVersionM (env : ManagerEnv) (analyserName : String) :
    Except JsErr String × List Effect :=
  (env.npmLatest analyserName,
   [Effect.netRequest ("https://registry.npmjs.org/" ++ analyserName)])

/-! ## Analyser manager (src/index.js) -/

/-- Model of `getAllAnalyserEntry(analyserName)`: fetch the central list
and look the name up, rejecting with `new UnknownAnalyserError(name)` when
it is absent. -/
def getAllAnalyserEntryM (env : ManagerEnv) (analyserName : String) :
    Except JsErr AnalyserEntry :=
  match env.analyserList with
  | .error e => .error e
  | .ok allAnalysers =>
    match lookupList allAnalysers analyserName with
    | some analyserConfig => .ok analyserConfig
    | none => .error (.unknownAnalyser analyserName)

/-- Model of `isNewerVersionAvailable(analyserName, version)`: looks the
analyser up centrally, asks npm for the latest version, then keys the
result shape on `semver.valid` of both strings. -/
def isNewerVersionAvailableM (env : ManagerEnv) (analyserName : String)
    (version : Option String) : Except JsErr NewerResult × List Effect :=
  match getAllAnalyserEntryM env analyserName with
  | .error e => (.error e, [])
  | .ok analyserConfig =>
    if analyserConfig.registry = "npm" then
      match getLatestVersionM env analyserName with
      | (.error e, evs) => (.error e, evs)
      | (.ok latestVersion, evs) =>
        if validOpt version && (semverParse latestVersion).isSome then
          (.ok ⟨some (semverLtStr (optStr version) latestVersion), latestVersion⟩, evs)
        else if (semverParse latestVersion).isSome then
          (.ok ⟨none, latestVersion⟩, evs)
        else
          (.error (doReject ("Invalid version '" ++ optStr version ++
            "' for analyser '" ++ analyserName ++ "'") none), evs)
    else
      -- `proxyAll` is applied to an undefined extractor for a non-npm
      -- registry, which throws
      (.error (.typeError "extractor is undefined"), [])

/-- Model of `readAnalyserConfig(analyserPath)`: read
`analyserPath/config.json` and JSON-parse it (comments stripped); a read
failure and a parse failure reject with the respective wrapped message. -/
def readAnalyserConfig (env : ManagerEnv) (analyserPath : String) :
    Except JsErr Config × List Effect :=
  let filePath := pathJoin analyserPath "config.json"
  (match env.readFileResult filePath with
   | .ok fileContents =>
     match env.parseJson fileContents with
     | .ok cfg => .ok cfg
     | .error parseMsg =>
       .error (doReject ("Unable to parse config file for analyser '" ++
         analyserPath ++ "'") (some parseMsg))
   | .error readMsg =>
     .error (doReject ("Unable to read config file for analyser '" ++
       analyserPath ++ "'") (some readMsg)),
   [Effect.readConfigFile filePath])

/-- Model of `_installAnalyser(analyser, version)`: fetch the central
entry (rejecting for an unknown analyser), then check the version — the
call `semver(version)` is the `SemVer` constructor, which throws
`TypeError(‹Invalid Version: › + version)` for an invalid non-`latest`
version — then delegate to the npm extractor and resolve with the central
`config` sub-object. -/
def _installAnalyser (env : ManagerEnv) (npmEnv : NpmEnv) (analyser : AnalyserArg)
    (version : String) : Except JsErr Config × List Effect :=
  match getAllAnalyserEntryM env analyser.name with
  | .error e => (.error e, [])
  | .ok analyserConfig =>
    let config := analyserConfig.config
    if version ≠ "latest" ∧ (semverParse version).isNone then
      (.error (.typeError ("Invalid Version: " ++ version)), [])
    else if analyserConfig.registry = "npm" then
      match npmFetch npmEnv analyser version env.installDir with
      | (.ok _, evs) => (.ok config, evs)
      | (.error e, evs) => (.error e, evs)
    else
      (.error (.error ("Unknown registry '" ++ analyserConfig.registry ++ "'")), [])

/-- The `haveVersion` step of `installAnalyser`: an absent or `latest`
version is resolved through `isNewerVersionAvailable(name)` (with the
version argument `undefined`), a concrete version is wrapped as
`{latest: version}`. -/
def haveVersionStep (env : ManagerEnv) (analyser : AnalyserArg) :
    Except JsErr NewerResult × List Effect :=
  match analyser.version with
  | none => isNewerVersionAvailableM env analyser.name none
  | some v =>
    if v = "latest" then isNewerVersionAvailableM env analyser.name none
    else (.ok ⟨none, v⟩, [])

/-- Model of `installAnalyser(analyser, force)`: resolve the version to
install, `stat` the target directory; when it exists, `force` removes it
and reinstalls while the default just reads the existing config; when the
`stat` fails with `ENOENT` a fresh install is performed; any other `stat`
failure rejects. -/
def installAnalyser (env : ManagerEnv) (npmEnv : NpmEnv) (analyser : AnalyserArg)
    (force : Bool) : Except JsErr InstallResult × List Effect :=
  match haveVersionStep env analyser with
  | (.error e, evs) => (.error e, evs)
  | (.ok version, evs) =>
    let versionToInstall := version.latest
    let pathToAnalyser := targetPath env.installDir analyser.name versionToInstall
    match env.stat pathToAnalyser with
    | .ok =>
      if force then
        match env.removeResult pathToAnalyser with
        | .ok _ =>
          match _installAnalyser env npmEnv analyser versionToInstall with
          | (.ok configObj, evs2) =>
            (.ok ⟨pathToAnalyser, configObj⟩,
             evs ++ [Effect.removeDir pathToAnalyser] ++ evs2)
          | (.error e, evs2) =>
            (.error e, evs ++ [Effect.removeDir pathToAnalyser] ++ evs2)
        | .error m => (.error (.error m), evs)
      else
        match readAnalyserConfig env pathToAnalyser with
        | (.ok configObj, evs2) => (.ok ⟨pathToAnalyser, configObj⟩, evs ++ evs2)
        | (.error e, evs2) => (.error e, evs ++ evs2)
    | .err code message =>
      if code = "ENOENT" then
        match _installAnalyser env npmEnv analyser versionToInstall with
        | (.ok configObj, evs2) => (.ok ⟨pathToAnalyser, configObj⟩, evs ++ evs2)
        | (.error e, evs2) => (.error e, evs ++ evs2)
      else
        (.error (doReject "Cannot read analyser install dir" (some message)), evs)

/-- Model of `fetchAnalyser(analyserName, version)`: `stat` the version
directory and read its config when present; any `stat` failure rejects
with the `Unable to fetch config` error — no install is ever
triggered. -/
def fetchAnalyser (env : ManagerEnv) (analyserName : String) (version : Option String) :
    Except JsErr InstallResult × List Effect :=
  let pathToAnalyser := targetPath env.installDir analyserName (optStr version)
  match env.stat pathToAnalyser with
  | .ok =>
    match readAnalyserConfig env pathToAnalyser with
    | (.ok configObj, evs) => (.ok ⟨pathToAnalyser, configObj⟩, evs)
    | (.error e, evs) => (.error e, evs)
  | .err _ message =>
    (.error (doReject ("Unable to fetch config for analyser '" ++ analyserName ++ "'")
      (some message)), [])

/-! ## Install directory listing (src/index.js,
`getLatestVersionOfInstalledAnalyser`) -/

/-- One entry of the install root as seen by `fs.readdirSync` plus its
`fs.statSync` directory flag. -/
structure DirEntry where
  name : String
  isDir : Bool
deriving DecidableEq, Repr

/-- Model of the inner `getDirectories(basePath, analyserName)`: when the
install root is not a directory (`none`) the result is empty, otherwise
the names of the sub-directories matching the case-insensitive
`^analyserName@` test.  The listing (`some files`) stands for
`fs.readdirSync` paired with each entry's `statSync.isDirectory()`. -/
def getDirectories (rootListing : Option (List DirEntry)) (analyserName : String) :
    List String :=
  match rootListing with
  | none => []
  | some files =>
    (files.filter (fun file => file.isDir && strHasPrefixCI analyserName file.name)).map
      DirEntry.name

/-- The version strings `getLatestVersionOfInstalledAnalyser` works on:
the suffix after the first `@` of every matching directory name, with
suffixes that are not valid semantic versions removed (`_.remove` keeps
exactly the `semver.valid` ones in `versions`). -/
def installedVersionCandidates (rootListing : Option (List DirEntry))
    (analyserName : String) : List String :=
  ((getDirectories rootListing analyserName).map substrAfterAt).filter
    (fun version => (semverParse version).isSome)

/-- Stable ascending insertion under JS string `<` (an element is placed
before the first position it is not strictly greater than). -/
def sortedInsert (x : String) : List String → List String
  | [] => [x]
  | y :: ys => if jsLtb y x then y :: sortedInsert x ys else x :: y :: ys

/-- Model of `_.sortBy(versions, identity)`: a stable ascending sort of
the version strings under JS string comparison. -/
def sortByIdent (l : List String) : List String := l.foldr sortedInsert []

/-- Model of `getLatestVersionOfInstalledAnalyser(analyserName)`: `null`
when no directory matches the prefix, otherwise the last element of the
ascending string sort of the valid version suffixes — which is JS
`undefined` (`ascVersions[ascVersions.length - 1]` on an empty array)
when every suffix was discarded as invalid. -/
def getLatestVersionOfInstalledAnalyser (rootListing : Option (List DirEntry))
    (analyserName : String) : JsStrOpt :=
  let allAnalyserDirs := getDirectories rootListing analyserName
  if allAnalyserDirs.isEmpty then .null
  else
    let ascVersions := sortByIdent (installedVersionCandidates rootListing analyserName)
    match ascVersions.getLast? with
    | some v => .str v
    | none => .undefined

/-- The analyser-lifecycle events contained in an effect trace, in
order. -/
def emittedEvents (effects : List Effect) : List Event :=
  effects.filterMap (fun eff => match eff with | .emit e => some e | _ => none)

/-- The full success trajectory of one install attempt. -/
def fullLifecycle : List Event :=
  [Event.downloading, Event.downloaded, Event.installing, Event.installed]

/-- Ascending order under JS string comparison. -/
def sortedAsc (l : List String) : Prop := List.Pairwise (fun a b => jsLeb a b = true) l

/-! ## Concrete environments used by the witnesses -/

/-- A concrete opaque config value. -/
def cfgW : Config := ⟨"cfg"⟩

/-- A concrete central-list entry backed by the npm registry. -/
def entryW : AnalyserEntry := ⟨"npm", cfgW⟩

/-- A concrete manager environment: one known analyser `a`, npm latest
`1.2.3`, the directory `root/a@1.0.0` present on disk, and config
reading/parsing succeeding. -/
def envW : ManagerEnv where
  installDir := "root"
  analyserList := .ok [("a", entryW)]
  npmLatest := fun _ => .ok "1.2.3"
  stat := fun p => if p = "root/a@1.0.0" then .ok else .err "ENOENT" "no such file"
  readFileResult := fun _ => .ok "contents"
  parseJson := fun _ => .ok cfgW
  removeResult := fun _ => .ok ()

/-- `envW` with an unreadable config file. -/
def envWReadErr : ManagerEnv :=
  { envW with readFileResult := fun _ => .error "EACCES: permission denied" }

/-- `envW` with a config file whose contents do not parse as JSON. -/
def envWParseErr : ManagerEnv :=
  { envW with parseJson := fun _ => .error "Unexpected token j" }

/-- `envW` with an empty central analyser list. -/
def envWUnknown : ManagerEnv :=
  { envW with analyserList := .ok [] }

/-- A concrete npm-extractor environment where every step succeeds and the
registry hosts versions `1.2.3` and `1.0.0`. -/
def npmEnvW : NpmEnv where
  npmInfo := fun _ =>
    .ok ⟨"1.2.3", [("1.2.3", ⟨"http://reg/a/-/a-1.2.3.tgz"⟩),
                   ("1.0.0", ⟨"http://reg/a/-/a-1.0.0.tgz"⟩)]⟩
  mkdirResult := fun _ => .ok ()
  downloadResult := .ok ()
  unpackResult := .ok ()
  hookResult := .ok ()

/-- `npmEnvW` with a failing post-install hook. -/
def npmEnvWHookFail : NpmEnv :=
  { npmEnvW with hookResult := .error "Command failed: ./bin/install" }

/-! ## Order facts about JS string comparison and the sort -/

theorem charListLtb_irrefl (l : List Char) : charListLtb l l = false := by
  induction l with
  | nil => rfl
  | cons a as ih => simp [charListLtb, ih]

theorem charListLtb_asymm (a b : List Char) (h : charListLtb a b = true) :
    charListLtb b a = false := by
  induction a generalizing b with
  | nil =>
    cases b with
    | nil => simp [charListLtb] at h
    | cons y ys => rfl
  | cons x xs ih =>
    cases b with
    | nil => simp [charListLtb] at h
    | cons y ys =>
      simp only [charListLtb] at h ⊢
      split_ifs at h with h1 h2
      · rw [if_neg (asymm h1), if_pos h1]
      · rw [if_neg h2, if_neg h1]
        exact ih ys h

theorem charListLtb_conn (a b : List Char) (h1 : charListLtb a b = false)
    (h2 : charListLtb b a = false) : a = b := by
  induction a generalizing b with
  | nil =>
    cases b with
    | nil => rfl
    | cons y ys => simp [charListLtb] at h1
  | cons x xs ih =>
    cases b with
    | nil => simp [charListLtb] at h2
    | cons y ys =>
      simp only [charListLtb] at h1 h2
      split_ifs at h1 with ha hb
      · rw [if_pos hb] at h2
        simp at h2
      · have hxy : x = y := le_antisymm (not_lt.mp hb) (not_lt.mp ha)
        subst hxy
        rw [if_neg ha, if_neg ha] at h2
        rw [ih ys h1 h2]

theorem charListLtb_trans (a b c : List Char) (h1 : charListLtb a b = true)
    (h2 : charListLtb b c = true) : charListLtb a c = true := by
  induction a generalizing b c with
  | nil =>
    cases c with
    | nil => cases b <;> simp [charListLtb] at h1 h2
    | cons z zs => simp [charListLtb]
  | cons x xs ih =>
    cases b with
    | nil => simp [charListLtb] at h1
    | cons y ys =>
      cases c with
      | nil => simp [charListLtb] at h2
      | cons z zs =>
        simp only [charListLtb] at h1 h2 ⊢
        split_ifs at h1 with hxy hyx
        · split_ifs at h2 with hyz hzy
          · rw [if_pos (lt_trans hxy hyz)]
          · have hyz' : y = z := le_antisymm (not_lt.mp hzy) (not_lt.mp hyz)
            subst hyz'
            rw [if_pos hxy]
        · have hxy' : x = y := le_antisymm (not_lt.mp hyx) (not_lt.mp hxy)
          subst hxy'
          split_ifs at h2 with hxz hzx
          · rw [if_pos hxz]
          · rw [if_neg hxz, if_neg hzx]
            exact ih ys zs h1 h2

theorem jsLeb_refl (a : String) : jsLeb a a = true := by
  simp [jsLeb, jsLtb, charListLtb_irrefl]

theorem jsLeb_of_jsLtb (a b : String) (h : jsLtb a b = true) : jsLeb a b = true := by
  simp only [jsLeb, jsLtb, Bool.not_eq_true']
  exact charListLtb_asymm _ _ h

theorem jsLeb_of_not_jsLtb (a b : String) (h : jsLtb b a = false) : jsLeb a b = true := by
  simp [jsLeb, h]

theorem jsLeb_trans (a b c : String) (h1 : jsLeb a b = true) (h2 : jsLeb b c = true) :
    jsLeb a c = true := by
  simp only [jsLeb, jsLtb, Bool.not_eq_true'] at h1 h2 ⊢
  cases hca : charListLtb c.data a.data with
  | false => rfl
  | true =>
    cases hbc : charListLtb b.data c.data with
    | true => exact absurd (charListLtb_trans _ _ _ hbc hca) (by simp [h1])
    | false =>
      have hbc' : b.data = c.data := charListLtb_conn _ _ hbc h2
      rw [← hbc'] at hca
      exact absurd hca (by simp [h1])

theorem mem_sortedInsert (x z : String) (l : List String) :
    z ∈ sortedInsert x l ↔ z = x ∨ z ∈ l := by
  induction l with
  | nil => simp [sortedInsert]
  | cons y ys ih =>
    simp only [sortedInsert]
    split_ifs with h
    · simp only [List.mem_cons, ih]
      tauto
    · simp only [List.mem_cons]

theorem sortedInsert_ne_nil (x : String) (l : List String) : sortedInsert x l ≠ [] := by
  cases l with
  | nil => simp [sortedInsert]
  | cons y ys =>
    simp only [sortedInsert]
    split_ifs <;> simp

theorem sortedAsc_sortedInsert (x : String) (l : List String) (h : sortedAsc l) :
    sortedAsc (sortedInsert x l) := by
  induction l with
  | nil => simp [sortedAsc, sortedInsert]
  | cons y ys ih =>
    rcases List.pairwise_cons.mp h with ⟨hy, hys⟩
    simp only [sortedInsert]
    split_ifs with hlt
    · refine List.pairwise_cons.mpr ⟨?_, ih hys⟩
      intro z hz
      rcases (mem_sortedInsert x z ys).mp hz with rfl | hz'
      · exact jsLeb_of_jsLtb y z hlt
      · exact hy z hz'
    · refine List.pairwise_cons.mpr ⟨?_, h⟩
      intro z hz
      have hxy : jsLeb x y = true := jsLeb_of_not_jsLtb x y (by simpa using hlt)
      rcases List.mem_cons.mp hz with rfl | hz'
      · exact hxy
      · exact jsLeb_trans x y z hxy (hy z hz')

theorem mem_sortByIdent (z : String) (l : List String) : z ∈ sortByIdent l ↔ z ∈ l := by
  induction l with
  | nil => simp [sortByIdent]
  | cons a t ih =>
    show z ∈ sortedInsert a (sortByIdent t) ↔ _
    rw [mem_sortedInsert, ih]
    simp

theorem sortedAsc_sortByIdent (l : List String) : sortedAsc (sortByIdent l) := by
  induction l with
  | nil => simp [sortByIdent, sortedAsc]
  | cons a t ih => exact sortedAsc_sortedInsert a (sortByIdent t) ih

theorem sortByIdent_ne_nil (l : List String) (h : l ≠ []) : sortByIdent l ≠ [] := by
  cases l with
  | nil => exact absurd rfl h
  | cons a t => exact sortedInsert_ne_nil a (sortByIdent t)

theorem mem_of_getLast?_eq (l : List String) (m : String) (h : l.getLast? = some m) :
    m ∈ l := by
  induction l with
  | nil => simp at h
  | cons a t ih =>
    cases t with
    | nil =>
      have h' : a = m := by simpa using h
      simp [h']
    | cons b t' =>
      rw [List.getLast?_cons_cons] at h
      exact List.mem_cons_of_mem _ (ih h)

theorem getLast?_max_of_sortedAsc (l : List String) (m : String) (hs : sortedAsc l)
    (hm : l.getLast? = some m) : ∀ x ∈ l, jsLeb x m = true := by
  induction l with
  | nil => simp at hm
  | cons a t ih =>
    rcases List.pairwise_cons.mp hs with ⟨ha, ht⟩
    cases t with
    | nil =>
      have hm' : a = m := by simpa using hm
      subst hm'
      intro x hx
      rw [List.mem_singleton.mp hx]
      exact jsLeb_refl a
    | cons b t' =>
      rw [List.getLast?_cons_cons] at hm
      intro x hx
      rcases List.mem_cons.mp hx with rfl | hx'
      · exact ha m (mem_of_getLast?_eq _ m hm)
      · exact ih ht hm x hx'

theorem cmpNat_refl (a : Nat) : cmpNat a a = .eq := by
  simp [cmpNat]

theorem cmpPreId_refl (p : PreId) : cmpPreId p p = .eq := by
  cases p <;> simp [cmpPreId, cmpNat_refl]

theorem cmpPreList_refl (l : List PreId) : cmpPreList l l = .eq := by
  induction l with
  | nil => rfl
  | cons a t ih => simp [cmpPreList, cmpPreId_refl, ih]

theorem semverCompare_refl (a : SemVer) : semverCompare a a = .eq := by
  simp only [semverCompare, cmpNat_refl]
  cases a.prerelease with
  | nil => rfl
  | cons p t => simp [cmpPreList_refl]

theorem strData_append (a b : String) : (a ++ b).data = a.data ++ b.data := by
  cases a
  cases b
  rfl

theorem lowerStr_data_append (a b : String) :
    (lowerStr (a ++ b)).data = (lowerStr a).data ++ (lowerStr b).data := by
  simp [lowerStr, strData_append]

/-! ## Claim C1 -/

/-- C1 (counterexample): with directories `name@1.2.0` and `name@1.10.0`
installed, `getLatestVersionOfInstalledAnalyser` returns `"1.2.0"`, even
though `"1.10.0"` is an installed version that is strictly greater under
semantic-version order — so the function does not return the
semantic-version maximum. -/
theorem getLatest_not_semver_max :
    getLatestVersionOfInstalledAnalyser
        (some [⟨"name@1.2.0", true⟩, ⟨"name@1.10.0", true⟩]) "name" =
      JsStrOpt.str "1.2.0" ∧
    "1.10.0" ∈ installedVersionCandidates
        (some [⟨"name@1.2.0", true⟩, ⟨"name@1.10.0", true⟩]) "name" ∧
    semverLtStr "1.2.0" "1.10.0" = true := by
  refine ⟨?_, ?_, ?_⟩ <;> decide

/-- C1 (amended): `getLatestVersionOfInstalledAnalyser` returns `null`
exactly when no installed directory matches the `name@` prefix, and
otherwise (when at least one matching suffix is a valid semantic version)
returns the maximum of the valid version suffixes under lexicographic JS
string order — not semantic-version order (`_.sortBy` with the identity
iteratee sorts the version strings as plain strings).  On the claim's own
example (`1.0.2` vs `1.10.0`) the two orders agree, so `"1.10.0"` is
still returned there. -/
theorem getLatest_string_order_max (rootListing : Option (List DirEntry))
    (analyserName : String) :
    (getLatestVersionOfInstalledAnalyser rootListing analyserName = .null ↔
      getDirectories rootListing analyserName = []) ∧
    (installedVersionCandidates rootListing analyserName ≠ [] →
      ∃ m, getLatestVersionOfInstalledAnalyser rootListing analyserName = .str m ∧
        m ∈ installedVersionCandidates rootListing analyserName ∧
        ∀ v ∈ installedVersionCandidates rootListing analyserName, jsLeb v m = true) := by
  constructor
  · simp only [getLatestVersionOfInstalledAnalyser]
    cases hd : (getDirectories rootListing analyserName).isEmpty with
    | true => exact iff_of_true (by simp) (List.isEmpty_iff.mp hd)
    | false =>
      rw [if_neg (by simp [hd])]
      constructor
      · intro h
        cases hm : (sortByIdent (installedVersionCandidates rootListing
            analyserName)).getLast? <;> rw [hm] at h <;> simp at h
      · intro h
        rw [h] at hd
        simp at hd
  · intro hc
    have hdir : getDirectories rootListing analyserName ≠ [] := by
      intro h
      apply hc
      simp [installedVersionCandidates, h]
    have hasc : sortByIdent (installedVersionCandidates rootListing analyserName) ≠ [] :=
      sortByIdent_ne_nil _ hc
    cases hm : (sortByIdent (installedVersionCandidates rootListing
        analyserName)).getLast? with
    | none =>
      exact absurd (List.getLast?_eq_none_iff.mp hm) hasc
    | some m =>
      refine ⟨m, ?_, ?_, ?_⟩
      · simp only [getLatestVersionOfInstalledAnalyser]
        rw [if_neg (by simp [List.isEmpty_iff, hdir]), hm]
      · exact (mem_sortByIdent m _).mp (mem_of_getLast?_eq _ m hm)
      · intro v hv
        exact getLast?_max_of_sortedAsc _ m (sortedAsc_sortByIdent _) hm v
          ((mem_sortByIdent v _).mpr hv)

/-- C1 (witness for the amended theorem): the claim's own example —
directories `name@1.0.2` and `name@1.10.0` yield `"1.10.0"`, the string
maximum of the installed valid versions. -/
theorem getLatest_string_order_max_witness :
    installedVersionCandidates
        (some [⟨"name@1.0.2", true⟩, ⟨"name@1.10.0", true⟩]) "name" ≠ [] ∧
    ∃ m, getLatestVersionOfInstalledAnalyser
        (some [⟨"name@1.0.2", true⟩, ⟨"name@1.10.0", true⟩]) "name" = .str m ∧
      m ∈ installedVersionCandidates
        (some [⟨"name@1.0.2", true⟩, ⟨"name@1.10.0", true⟩]) "name" ∧
      ∀ v ∈ installedVersionCandidates
        (some [⟨"name@1.0.2", true⟩, ⟨"name@1.10.0", true⟩]) "name",
        jsLeb v m = true :=
  ⟨by decide, (getLatest_string_order_max _ _).2 (by decide)⟩

/-! ## Claim C9 -/

/-- C9: when at least one directory matches the `name@` prefix but no
matching suffix is a valid semantic version,
`getLatestVersionOfInstalledAnalyser` returns JS `undefined`
(`ascVersions[ascVersions.length - 1]` on an empty array) rather than
`null`; `null` is returned exactly when zero directories match the
prefix. -/
theorem getLatest_undefined_vs_null (rootListing : Option (List DirEntry))
    (analyserName : String) :
    (getDirectories rootListing analyserName ≠ [] →
      installedVersionCandidates rootListing analyserName = [] →
      getLatestVersionOfInstalledAnalyser rootListing analyserName = .undefined) ∧
    (getLatestVersionOfInstalledAnalyser rootListing analyserName = .null ↔
      getDirectories rootListing analyserName = []) := by
  constructor
  · intro hdir hc
    simp only [getLatestVersionOfInstalledAnalyser]
    rw [if_neg (by simp [List.isEmpty_iff, hdir]), hc]
    rfl
  · simp only [getLatestVersionOfInstalledAnalyser]
    cases hd : (getDirectories rootListing analyserName).isEmpty with
    | true => exact iff_of_true (by simp) (List.isEmpty_iff.mp hd)
    | false =>
      rw [if_neg (by simp [hd])]
      constructor
      · intro h
        cases hm : (sortByIdent (installedVersionCandidates rootListing
            analyserName)).getLast? <;> rw [hm] at h <;> simp at h
      · intro h
        rw [h] at hd
        simp at hd

/-- C9 (witness): a single installed directory `foo@garbage` — the suffix
is not a valid semantic version, so the result is `undefined`. -/
theorem getLatest_undefined_vs_null_witness :
    getDirectories (some [⟨"foo@garbage", true⟩]) "foo" ≠ [] ∧
    installedVersionCandidates (some [⟨"foo@garbage", true⟩]) "foo" = [] ∧
    getLatestVersionOfInstalledAnalyser (some [⟨"foo@garbage", true⟩]) "foo" =
      .undefined :=
  ⟨by decide, by decide,
    (getLatest_undefined_vs_null (some [⟨"foo@garbage", true⟩]) "foo").1
      (by decide) (by decide)⟩

/-! ## Claim C10 -/

/-- C10: the directory-name match is case-insensitive on the analyser
name: any directory entry of the form `w ++ "@" ++ v` whose name part `w`
lower-cases to the plugin name is selected by `getDirectories`, and its
version suffix (when a valid semantic version) enters the candidate set
from which the latest installed version is computed. -/
theorem getDirectories_case_insensitive (listing : List DirEntry)
    (analyserName w v : String) (d : DirEntry) (hmem : d ∈ listing)
    (hdir : d.isDir = true) (hname : d.name = w ++ "@" ++ v)
    (hcase : lowerStr w = lowerStr analyserName) :
    d.name ∈ getDirectories (some listing) analyserName ∧
    ((semverParse (substrAfterAt d.name)).isSome = true →
      substrAfterAt d.name ∈ installedVersionCandidates (some listing) analyserName) := by
  have hpref : strHasPrefixCI analyserName d.name = true := by
    simp only [strHasPrefixCI]
    rw [hname]
    rw [List.isPrefixOf_iff_prefix]
    rw [lowerStr_data_append (w ++ "@") v, lowerStr_data_append w "@",
      lowerStr_data_append analyserName "@", hcase]
    exact (List.prefix_append _ _)
  have hmemdir : d.name ∈ getDirectories (some listing) analyserName := by
    simp only [getDirectories]
    exact List.mem_map_of_mem DirEntry.name
      (List.mem_filter.mpr ⟨hmem, by simp [hdir, hpref]⟩)
  refine ⟨hmemdir, fun hvalid => ?_⟩
  simp only [installedVersionCandidates]
  exact List.mem_filter.mpr ⟨List.mem_map_of_mem substrAfterAt hmemdir, hvalid⟩

/-- C10 (witness): directory `Name@1.0.0` is matched for plugin name
`name` and contributes version `1.0.0`. -/
theorem getDirectories_case_insensitive_witness :
    (⟨"Name@1.0.0", true⟩ : DirEntry) ∈ [(⟨"Name@1.0.0", true⟩ : DirEntry)] ∧
    ("Name@1.0.0" : String) = "Name" ++ "@" ++ "1.0.0" ∧
    lowerStr "Name" = lowerStr "name" ∧
    "Name@1.0.0" ∈ getDirectories (some [⟨"Name@1.0.0", true⟩]) "name" ∧
    substrAfterAt "Name@1.0.0" ∈
      installedVersionCandidates (some [⟨"Name@1.0.0", true⟩]) "name" := by
  have h := getDirectories_case_insensitive [⟨"Name@1.0.0", true⟩] "name" "Name"
    "1.0.0" ⟨"Name@1.0.0", true⟩ (by decide) (by decide) (by decide) (by decide)
  exact ⟨by decide, by decide, by decide, h.1, h.2 (by decide)⟩

/-! ## Claims C8 and C4 -/

theorem doReject_is_error (msg : String) (err : Option String) :
    ∃ s, doReject msg err = JsErr.error s := by
  cases err with
  | none => exact ⟨msg, rfl⟩
  | some m =>
    simp only [doReject]
    by_cases h : m = ""
    · rw [if_pos h]
      exact ⟨msg, rfl⟩
    · rw [if_neg h]
      exact ⟨_, rfl⟩

/-- C8: `readAnalyserConfig` rejects with the `Unable to read config
file` error when `config.json` cannot be read, rejects with the
`Unable to parse config file` error when its contents do not parse, and
otherwise resolves to exactly the parsed config; every resolved value
comes from a successful full parse of the file contents (never a partial
object). -/
theorem readAnalyserConfig_spec (env : ManagerEnv) (analyserPath : String) :
    (∀ readMsg,
      env.readFileResult (pathJoin analyserPath "config.json") = .error readMsg →
      (readAnalyserConfig env analyserPath).1 =
        .error (doReject ("Unable to read config file for analyser '" ++
          analyserPath ++ "'") (some readMsg))) ∧
    (∀ fileContents parseMsg,
      env.readFileResult (pathJoin analyserPath "config.json") = .ok fileContents →
      env.parseJson fileContents = .error parseMsg →
      (readAnalyserConfig env analyserPath).1 =
        .error (doReject ("Unable to parse config file for analyser '" ++
          analyserPath ++ "'") (some parseMsg))) ∧
    (∀ fileContents cfg,
      env.readFileResult (pathJoin analyserPath "config.json") = .ok fileContents →
      env.parseJson fileContents = .ok cfg →
      (readAnalyserConfig env analyserPath).1 = .ok cfg) ∧
    (∀ cfg, (readAnalyserConfig env analyserPath).1 = .ok cfg →
      ∃ fileContents,
        env.readFileResult (pathJoin analyserPath "config.json") = .ok fileContents ∧
        env.parseJson fileContents = .ok cfg) := by
  refine ⟨?_, ?_, ?_, ?_⟩
  · intro readMsg h
    simp [readAnalyserConfig, h]
  · intro fileContents parseMsg h1 h2
    simp [readAnalyserConfig, h1, h2]
  · intro fileContents cfg h1 h2
    simp [readAnalyserConfig, h1, h2]
  · intro cfg h
    simp only [readAnalyserConfig] at h
    cases h1 : env.readFileResult (pathJoin analyserPath "config.json") with
    | ok fileContents =>
      cases h2 : env.parseJson fileContents with
      | ok c =>
        simp only [h1, h2, Except.ok.injEq] at h
        exact ⟨fileContents, rfl, by rw [h2, h]⟩
      | error parseMsg =>
        obtain ⟨s, hs⟩ := doReject_is_error
          ("Unable to parse config file for analyser '" ++ analyserPath ++ "'")
          (some parseMsg)
        simp [h1, h2, hs] at h
    | error readMsg =>
      obtain ⟨s, hs⟩ := doReject_is_error
        ("Unable to read config file for analyser '" ++ analyserPath ++ "'")
        (some readMsg)
      simp [h1, hs] at h

/-- C8 (witness): in `envWParseErr` the config file reads but does not
parse, and the call rejects with the parse error. -/
theorem readAnalyserConfig_spec_witness :
    (readAnalyserConfig envWParseErr "root/a@1.0.0").1 =
      .error (doReject ("Unable to parse config file for analyser '" ++
        "root/a@1.0.0" ++ "'") (some "Unexpected token j")) :=
  (readAnalyserConfig_spec envWParseErr "root/a@1.0.0").2.1 "contents"
    "Unexpected token j" rfl rfl

/-- C4: `fetchAnalyser` is read-only: when the version directory exists
its result is exactly the (mapped) result of reading and parsing that
directory's `config.json`; when the `stat` fails it rejects with the
`Unable to fetch config` error; and in every case its effect trace
consists only of the one config-file read — no network access, no
directory creation or removal, and no install. -/
theorem fetchAnalyser_read_only (env : ManagerEnv) (analyserName version : String) :
    (env.stat (targetPath env.installDir analyserName version) = .ok →
      (fetchAnalyser env analyserName (some version)).1 =
        Except.map (fun cfg => InstallResult.mk
            (targetPath env.installDir analyserName version) cfg)
          (readAnalyserConfig env (targetPath env.installDir analyserName version)).1) ∧
    (∀ code message,
      env.stat (targetPath env.installDir analyserName version) = .err code message →
      (fetchAnalyser env analyserName (some version)).1 =
        .error (doReject ("Unable to fetch config for analyser '" ++ analyserName ++ "'")
          (some message))) ∧
    (∀ eff ∈ (fetchAnalyser env analyserName (some version)).2,
      eff = Effect.readConfigFile
        (pathJoin (targetPath env.installDir analyserName version) "config.json")) := by
  refine ⟨?_, ?_, ?_⟩
  · intro h
    simp only [fetchAnalyser, optStr, h]
    cases h2 : readAnalyserConfig env (targetPath env.installDir analyserName version) with
    | mk r evs =>
      cases r <;> simp_all [Except.map]
  · intro code message h
    simp [fetchAnalyser, optStr, h]
  · intro eff heff
    simp only [fetchAnalyser, optStr] at heff
    cases h : env.stat (targetPath env.installDir analyserName version) with
    | ok =>
      rw [h] at heff
      cases h2 : readAnalyserConfig env (targetPath env.installDir analyserName version) with
      | mk r evs =>
        have hevs : evs = [Effect.readConfigFile
            (pathJoin (targetPath env.installDir analyserName version) "config.json")] := by
          have := congrArg Prod.snd h2
          simpa [readAnalyserConfig] using this.symm
        rw [h2] at heff
        cases r <;> simp_all
    | err code message =>
      rw [h] at heff
      simp at heff

/-- C4 (witness): in `envW` the directory `root/a@1.0.0` exists, its
config parses to `cfgW`, and fetching resolves to `{path, config}` with
only the config read as effect. -/
theorem fetchAnalyser_read_only_witness :
    (fetchAnalyser envW "a" (some "1.0.0")).1 =
      Except.map (fun cfg => InstallResult.mk (targetPath "root" "a" "1.0.0") cfg)
        (readAnalyserConfig envW (targetPath "root" "a" "1.0.0")).1 ∧
    (fetchAnalyser envW "a" (some "1.0.0")).1 = .ok ⟨"root/a@1.0.0", cfgW⟩ :=
  ⟨(fetchAnalyser_read_only envW "a" "1.0.0").1 rfl, rfl⟩

/-! ## Claim C3 -/

theorem semverLtStr_eq_false (v w : String) (h : semverParse v = semverParse w)
    (hv : (semverParse w).isSome = true) : semverLtStr v w = false := by
  simp only [semverLtStr]
  cases hw : semverParse w with
  | none =>
    rw [hw] at hv
    simp at hv
  | some x =>
    rw [h, hw]
    simp only [semverCompare_refl]
    rfl

/-- C3: with the analyser known centrally (npm-backed) and the npm fetch
succeeding, `isNewerVersionAvailable` resolves to `{newer, latest}` with
`newer = semver.lt(version, latest)` when both strings are valid semantic
versions (so equal versions give `newer = false`), resolves to `{latest}`
without a `newer` field when only `latest` is valid, and rejects with the
`Invalid version` error when `latest` itself is not a valid semantic
version. -/
theorem isNewerVersionAvailable_spec (env : ManagerEnv) (analyserName : String)
    (version : Option String) (allAnalysers : List (String × AnalyserEntry))
    (entry : AnalyserEntry) (latestVersion : String)
    (hlist : env.analyserList = .ok allAnalysers)
    (hentry : lookupList allAnalysers analyserName = some entry)
    (hnpm : entry.registry = "npm")
    (hlatest : env.npmLatest analyserName = .ok latestVersion) :
    (∀ v, version = some v → (semverParse v).isSome = true →
      (semverParse latestVersion).isSome = true →
      (isNewerVersionAvailableM env analyserName version).1 =
        .ok ⟨some (semverLtStr v latestVersion), latestVersion⟩) ∧
    (∀ v, version = some v → semverParse v = semverParse latestVersion →
      (semverParse latestVersion).isSome = true →
      (isNewerVersionAvailableM env analyserName version).1 =
        .ok ⟨some false, latestVersion⟩) ∧
    (validOpt version = false → (semverParse latestVersion).isSome = true →
      (isNewerVersionAvailableM env analyserName version).1 =
        .ok ⟨none, latestVersion⟩) ∧
    ((semverParse latestVersion).isSome = false →
      (isNewerVersionAvailableM env analyserName version).1 =
        .error (doReject ("Invalid version '" ++ optStr version ++
          "' for analyser '" ++ analyserName ++ "'") none)) := by
  have hred : (isNewerVersionAvailableM env analyserName version).1 =
      (if validOpt version && (semverParse latestVersion).isSome then
        .ok ⟨some (semverLtStr (optStr version) latestVersion), latestVersion⟩
      else if (semverParse latestVersion).isSome then
        .ok ⟨none, latestVersion⟩
      else
        .error (doReject ("Invalid version '" ++ optStr version ++
          "' for analyser '" ++ analyserName ++ "'") none)) := by
    simp only [isNewerVersionAvailableM, getAllAnalyserEntryM, getLatestVersionM,
      hlist, hentry, hnpm, hlatest, if_pos]
    split_ifs <;> rfl
  refine ⟨?_, ?_, ?_, ?_⟩
  · intro v hv hval hlat
    subst hv
    rw [hred]
    simp [validOpt, hval, hlat, optStr]
  · intro v hv heq hlat
    subst hv
    rw [hred]
    have hval : (semverParse v).isSome = true := by rw [heq]; exact hlat
    simp [validOpt, hval, hlat, optStr, semverLtStr_eq_false v latestVersion heq hlat]
  · intro hinv hlat
    rw [hred]
    simp [hinv, hlat]
  · intro hlat
    rw [hred]
    simp [hlat]

/-- C3 (witness): known analyser `a`, current version `1.0.0`, npm latest
`1.2.3` — both valid, `newer = true`; and at equal versions `newer`
would be `false` since `semverLtStr` is irreflexive. -/
theorem isNewerVersionAvailable_spec_witness :
    (isNewerVersionAvailableM envW "a" (some "1.0.0")).1 =
      .ok ⟨some (semverLtStr "1.0.0" "1.2.3"), "1.2.3"⟩ ∧
    semverLtStr "1.0.0" "1.2.3" = true ∧
    semverLtStr "1.2.3" "1.2.3" = false :=
  ⟨(isNewerVersionAvailable_spec envW "a" (some "1.0.0") [("a", entryW)] entryW
      "1.2.3" rfl rfl rfl rfl).1 "1.0.0" rfl (by decide) (by decide),
   by decide, by decide⟩

/-! ## Claim C7 -/

/-- C7: when the analyser name is absent from the fetched central list,
`installAnalyser` rejects with `UnknownAnalyserError` — whose message is
exactly `Unknown analyser: ` followed by the name — on the no-version
route, on the explicit-`latest` route, and on the concrete-version route
whenever the target directory is absent (so whenever an install could
happen at all). -/
theorem installAnalyser_unknown_plugin (env : ManagerEnv) (npmEnv : NpmEnv)
    (analyserName : String) (allAnalysers : List (String × AnalyserEntry))
    (hlist : env.analyserList = .ok allAnalysers)
    (hmiss : lookupList allAnalysers analyserName = none) :
    (∀ force, (installAnalyser env npmEnv ⟨analyserName, none⟩ force).1 =
      .error (.unknownAnalyser analyserName)) ∧
    (∀ force, (installAnalyser env npmEnv ⟨analyserName, some "latest"⟩ force).1 =
      .error (.unknownAnalyser analyserName)) ∧
    (∀ force v m, v ≠ "latest" →
      env.stat (targetPath env.installDir analyserName v) = .err "ENOENT" m →
      (installAnalyser env npmEnv ⟨analyserName, some v⟩ force).1 =
        .error (.unknownAnalyser analyserName)) ∧
    JsErr.message (.unknownAnalyser analyserName) =
      "Unknown analyser: " ++ analyserName := by
  have hga : getAllAnalyserEntryM env analyserName =
      .error (.unknownAnalyser analyserName) := by
    simp [getAllAnalyserEntryM, hlist, hmiss]
  refine ⟨?_, ?_, ?_, rfl⟩
  · intro force
    simp [installAnalyser, haveVersionStep, isNewerVersionAvailableM, hga]
  · intro force
    simp [installAnalyser, haveVersionStep, isNewerVersionAvailableM, hga]
  · intro force v m hne hstat
    simp [installAnalyser, haveVersionStep, hne, hstat, _installAnalyser, hga]

/-- C7 (witness): installing `rubbish-subbish-analyser` against an empty
central list rejects with the message
`Unknown analyser: rubbish-subbish-analyser`. -/
theorem installAnalyser_unknown_plugin_witness :
    (installAnalyser envWUnknown npmEnvW ⟨"rubbish-subbish-analyser", none⟩ false).1 =
      .error (.unknownAnalyser "rubbish-subbish-analyser") ∧
    JsErr.message (.unknownAnalyser "rubbish-subbish-analyser") =
      "Unknown analyser: rubbish-subbish-analyser" :=
  ⟨(installAnalyser_unknown_plugin envWUnknown npmEnvW "rubbish-subbish-analyser" []
      rfl rfl).1 false,
   (installAnalyser_unknown_plugin envWUnknown npmEnvW "rubbish-subbish-analyser" []
      rfl rfl).2.2.2⟩

/-! ## Claim C6 -/

/-- C6: every install attempt emits a prefix of
`downloading, downloaded, installing, installed` — in that fixed order,
each event at most once, so no step is retried within the attempt; the
full sequence is emitted exactly when the attempt resolves (terminal
success), any failure stops the trace (terminal failure); and `installed`
completes the sequence only when the post-install hook succeeded. -/
theorem npmFetch_event_order (env : NpmEnv) (analyser : AnalyserArg)
    (analyserVersion analyserInstallDir : String) :
    (∃ n, emittedEvents (npmFetch env analyser analyserVersion analyserInstallDir).2 =
      fullLifecycle.take n) ∧
    ((npmFetch env analyser analyserVersion analyserInstallDir).1 = .ok () ↔
      emittedEvents (npmFetch env analyser analyserVersion analyserInstallDir).2 =
        fullLifecycle) ∧
    (emittedEvents (npmFetch env analyser analyserVersion analyserInstallDir).2 =
        fullLifecycle → env.hookResult = .ok ()) := by
  cases h1 : env.npmInfo analyser.name with
  | error e =>
    refine ⟨⟨1, ?_⟩, ?_, ?_⟩ <;> simp [npmFetch, h1, emittedEvents, fullLifecycle]
  | ok analyserInfo =>
    cases h2 : lookupList analyserInfo.versions
        (resolveInstallVersion analyserVersion analyserInfo) with
    | none =>
      refine ⟨⟨1, ?_⟩, ?_, ?_⟩ <;> simp [npmFetch, h1, h2, emittedEvents, fullLifecycle]
    | some specificVersionInfo =>
      cases h3 : env.mkdirResult
          (targetPath analyserInstallDir analyser.name analyserVersion) with
      | error m =>
        refine ⟨⟨1, ?_⟩, ?_, ?_⟩ <;>
          simp [npmFetch, h1, h2, h3, emittedEvents, fullLifecycle]
      | ok u1 =>
        cases h4 : env.downloadResult with
        | error m =>
          refine ⟨⟨1, ?_⟩, ?_, ?_⟩ <;>
            simp [npmFetch, h1, h2, h3, h4, emittedEvents, fullLifecycle]
        | ok u2 =>
          cases h5 : env.unpackResult with
          | error m =>
            refine ⟨⟨2, ?_⟩, ?_, ?_⟩ <;>
              simp [npmFetch, h1, h2, h3, h4, h5, emittedEvents, fullLifecycle]
          | ok u3 =>
            cases h6 : env.hookResult with
            | error m =>
              refine ⟨⟨3, ?_⟩, ?_, ?_⟩ <;>
                simp [npmFetch, h1, h2, h3, h4, h5, h6, emittedEvents, fullLifecycle]
            | ok u4 =>
              refine ⟨⟨4, ?_⟩, ?_, ?_⟩ <;>
                simp [npmFetch, h1, h2, h3, h4, h5, h6, emittedEvents, fullLifecycle]

/-- C6 (witness): with every step succeeding, the attempt emits exactly
the full lifecycle and the hook conclusion follows from the theorem. -/
theorem npmFetch_event_order_witness :
    emittedEvents (npmFetch npmEnvW ⟨"a", some "1.0.0"⟩ "1.0.0" "root").2 =
      fullLifecycle ∧
    npmEnvW.hookResult = .ok () :=
  ⟨by decide,
   (npmFetch_event_order npmEnvW ⟨"a", some "1.0.0"⟩ "1.0.0" "root").2.2 (by decide)⟩

/-! ## Claim C5 -/

/-- C5: `NpmExtractor.fetch` installs exactly the requested version when
one is given (`latest` resolves to the registry's `dist-tags.latest`),
and when the requested non-`latest` version is absent from the
registry's `versions` map the attempt rejects with the
`npm does not have version` error with a trace showing no directory was
created; when the version is present its exact tarball is downloaded. -/
theorem npmFetch_version_resolution (env : NpmEnv) (analyser : AnalyserArg)
    (analyserVersion analyserInstallDir : String) (analyserInfo : PackageInfo) :
    (analyserVersion ≠ "latest" →
      resolveInstallVersion analyserVersion analyserInfo = analyserVersion) ∧
    (resolveInstallVersion "latest" analyserInfo = analyserInfo.distTagsLatest) ∧
    (env.npmInfo analyser.name = .ok analyserInfo →
      lookupList analyserInfo.versions
          (resolveInstallVersion analyserVersion analyserInfo) = none →
      (npmFetch env analyser analyserVersion analyserInstallDir).1 =
        .error (doReject ("Invalid version for analyser '" ++ analyser.name ++
          "'. npm does not have version '" ++
          resolveInstallVersion analyserVersion analyserInfo ++ "'") none) ∧
      (npmFetch env analyser analyserVersion analyserInstallDir).2 =
        [Effect.emit .downloading,
         Effect.netRequest ("https://registry.npmjs.org/" ++ analyser.name)]) ∧
    (∀ specificVersionInfo, env.npmInfo analyser.name = .ok analyserInfo →
      analyserVersion ≠ "latest" →
      lookupList analyserInfo.versions analyserVersion = some specificVersionInfo →
      env.mkdirResult (targetPath analyserInstallDir analyser.name analyserVersion) =
        .ok () →
      Effect.download specificVersionInfo.tarball
          (pathJoin (targetPath analyserInstallDir analyser.name analyserVersion)
            (resolveTarballName specificVersionInfo.tarball)) ∈
        (npmFetch env analyser analyserVersion analyserInstallDir).2) := by
  refine ⟨?_, ?_, ?_, ?_⟩
  · intro hne
    simp [resolveInstallVersion, hne]
  · simp [resolveInstallVersion]
  · intro h1 h2
    constructor <;> simp [npmFetch, h1, h2]
  · intro specificVersionInfo h1 hne hlook hmk
    have hres : resolveInstallVersion analyserVersion analyserInfo = analyserVersion := by
      simp [resolveInstallVersion, hne]
    cases h4 : env.downloadResult with
    | error m => simp [npmFetch, h1, hres, hlook, hmk, h4]
    | ok u2 =>
      cases h5 : env.unpackResult with
      | error m => simp [npmFetch, h1, hres, hlook, hmk, h4, h5]
      | ok u3 =>
        cases h6 : env.hookResult with
        | error m => simp [npmFetch, h1, hres, hlook, hmk, h4, h5, h6]
        | ok u4 => simp [npmFetch, h1, hres, hlook, hmk, h4, h5, h6]

/-- C5 (witness): requesting version `9.9.9`, absent from the registry's
versions map, rejects before any directory is created. -/
theorem npmFetch_version_resolution_witness :
    (npmFetch npmEnvW ⟨"a", some "9.9.9"⟩ "9.9.9" "root").1 =
      .error (doReject ("Invalid version for analyser '" ++ "a" ++
        "'. npm does not have version '" ++
        resolveInstallVersion "9.9.9" (PackageInfo.mk "1.2.3"
          [("1.2.3", ⟨"http://reg/a/-/a-1.2.3.tgz"⟩),
           ("1.0.0", ⟨"http://reg/a/-/a-1.0.0.tgz"⟩)]) ++ "'") none) ∧
    (npmFetch npmEnvW ⟨"a", some "9.9.9"⟩ "9.9.9" "root").2 =
      [Effect.emit .downloading, Effect.netRequest ("https://registry.npmjs.org/" ++ "a")] :=
  (npmFetch_version_resolution npmEnvW ⟨"a", some "9.9.9"⟩ "9.9.9" "root"
    (PackageInfo.mk "1.2.3"
      [("1.2.3", ⟨"http://reg/a/-/a-1.2.3.tgz"⟩),
       ("1.0.0", ⟨"http://reg/a/-/a-1.0.0.tgz"⟩)])).2.2.1 rfl (by decide)

/-! ## Claim C2 -/

/-- C2: `installAnalyser` resolves an absent-or-`latest` version through
`isNewerVersionAvailable(name)`; with the resolved version `nr.latest`
and target directory `{installRoot}/{name}@{latest}`: when the directory
exists and `force` is falsy the existing config is read and returned with
no install; when it exists and `force` is truthy the directory is removed
and a fresh `_installAnalyser` runs; when it is absent (`ENOENT`) a fresh
install runs; and every resolved result carries the target directory as
its `path`. -/
theorem installAnalyser_branches (env : ManagerEnv) (npmEnv : NpmEnv)
    (analyser : AnalyserArg) (force : Bool) (nr : NewerResult) (evs0 : List Effect)
    (hv : haveVersionStep env analyser = (.ok nr, evs0)) :
    ((analyser.version = none ∨ analyser.version = some "latest") →
      haveVersionStep env analyser = isNewerVersionAvailableM env analyser.name none) ∧
    (env.stat (targetPath env.installDir analyser.name nr.latest) = .ok →
      force = false →
      installAnalyser env npmEnv analyser force =
        (Except.map (fun cfg => InstallResult.mk
            (targetPath env.installDir analyser.name nr.latest) cfg)
          (readAnalyserConfig env
            (targetPath env.installDir analyser.name nr.latest)).1,
         evs0 ++ (readAnalyserConfig env
            (targetPath env.installDir analyser.name nr.latest)).2)) ∧
    (env.stat (targetPath env.installDir analyser.name nr.latest) = .ok →
      force = true →
      env.removeResult (targetPath env.installDir analyser.name nr.latest) = .ok () →
      installAnalyser env npmEnv analyser force =
        (Except.map (fun cfg => InstallResult.mk
            (targetPath env.installDir analyser.name nr.latest) cfg)
          (_installAnalyser env npmEnv analyser nr.latest).1,
         evs0 ++ [Effect.removeDir (targetPath env.installDir analyser.name nr.latest)]
           ++ (_installAnalyser env npmEnv analyser nr.latest).2)) ∧
    (∀ m, env.stat (targetPath env.installDir analyser.name nr.latest) =
        .err "ENOENT" m →
      installAnalyser env npmEnv analyser force =
        (Except.map (fun cfg => InstallResult.mk
            (targetPath env.installDir analyser.name nr.latest) cfg)
          (_installAnalyser env npmEnv analyser nr.latest).1,
         evs0 ++ (_installAnalyser env npmEnv analyser nr.latest).2)) ∧
    (∀ r, (installAnalyser env npmEnv analyser force).1 = .ok r →
      r.path = targetPath env.installDir analyser.name nr.latest) := by
  refine ⟨?_, ?_, ?_, ?_, ?_⟩
  · rintro (h | h) <;> simp [haveVersionStep, h]
  · intro hstat hforce
    subst hforce
    simp only [installAnalyser, hv, hstat, Bool.false_eq_true, if_false]
    cases hrc : readAnalyserConfig env
        (targetPath env.installDir analyser.name nr.latest) with
    | mk res evs2 => cases res <;> simp [Except.map]
  · intro hstat hforce hrm
    subst hforce
    simp only [installAnalyser, hv, hstat, hrm, if_true]
    cases hin : _installAnalyser env npmEnv analyser nr.latest with
    | mk res evs2 => cases res <;> simp [Except.map]
  · intro m hstat
    simp only [installAnalyser, hv, hstat, if_true]
    cases hin : _installAnalyser env npmEnv analyser nr.latest with
    | mk res evs2 => cases res <;> simp [Except.map]
  · intro r hr
    simp only [installAnalyser, hv] at hr
    split at hr
    · split at hr
      · split at hr
        · split at hr
          · simp only [Except.ok.injEq] at hr
            rw [← hr]
          · simp at hr
        · simp at hr
      · split at hr
        · simp only [Except.ok.injEq] at hr
          rw [← hr]
        · simp at hr
    · rename_i code message heq
      split at hr
      · split at hr
        · simp only [Except.ok.injEq] at hr
          rw [← hr]
        · simp at hr
      · obtain ⟨s, hs⟩ := doReject_is_error "Cannot read analyser install dir"
          (some message)
        rw [hs] at hr
        simp at hr

/-- C2 (witness): installing already-present `a@1.0.0` without `force`
reads the existing config and returns `{path, config}` for the target
directory. -/
theorem installAnalyser_branches_witness :
    haveVersionStep envW ⟨"a", some "1.0.0"⟩ = (.ok ⟨none, "1.0.0"⟩, []) ∧
    installAnalyser envW npmEnvW ⟨"a", some "1.0.0"⟩ false =
      (Except.map (fun cfg => InstallResult.mk
          (targetPath envW.installDir "a" "1.0.0") cfg)
        (readAnalyserConfig envW (targetPath envW.installDir "a" "1.0.0")).1,
       [] ++ (readAnalyserConfig envW (targetPath envW.installDir "a" "1.0.0")).2) :=
  ⟨rfl,
   (installAnalyser_branches envW npmEnvW ⟨"a", some "1.0.0"⟩ false ⟨none, "1.0.0"⟩
      [] rfl).2.1 rfl rfl⟩
